import Mathlib

/-!
Verification of the wallet credential lifecycle of openclaw-setup.

The development shallowly embeds the wallet-related functions of
src/openclaw-setup.js: the password-based encryption routine `encryptKey`,
the wallet constructors `generateNewWallet`, `importFromPrivateKey`,
`importFromSeedPhrase`, `connectHardwareWallet`, and the persistence tail of
`stepWalletSetup`.  External cryptographic primitives (Node crypto, bip39,
ed25519-hd-key, tweetnacl inside solana web3) are abstracted as a
`CryptoBackend` structure whose fields carry only the structural facts the
source relies on; a concrete executable instance `modelBackend` is provided
so that every statement can be evaluated on concrete inputs.  Randomness
(crypto.randomBytes, mnemonic entropy) is modelled as an explicit byte tape
together with a read position, which each call advances.

Bytes are `Nat` values kept below 256; byte strings are `List Nat`; JS
strings are Lean `String`.
-/

namespace Openclaw

/-! ## Byte-level codecs: hex, UTF-8, base58 -/

/-- Concatenation of the images of a list under a list-valued function.
Used instead of a library flatMap so that all lemmas are self-contained. -/
def flatList (f : α → List β) : List α → List β
  | [] => []
  | a :: l => f a ++ flatList f l

/-- Model of crypto.randomBytes reading from an explicit random tape:
`n` bytes taken from positions `pos, pos+1, ...` of the tape. -/
def randBytes (n : Nat) (tape : Nat → Nat) (pos : Nat) : List Nat :=
  (List.range n).map (fun i => tape (pos + i) % 256)

/-- Lowercase hex digit for a value below 16, as produced by
Buffer.toString with encoding hex. -/
def hexDigitChar (n : Nat) : Char :=
  if n < 10 then Char.ofNat (48 + n) else Char.ofNat (87 + n)

/-- Hex encoding of a byte list, two lowercase digits per byte
(Buffer.toString with encoding hex). -/
def hexEncodeBytes (l : List Nat) : List Char :=
  flatList (fun b => [hexDigitChar (b / 16), hexDigitChar (b % 16)]) l

/-- Hex encoding as a string. -/
def hexEncodeStr (l : List Nat) : String :=
  String.mk (hexEncodeBytes l)

/-- Value of one hex digit (accepting both cases, as Buffer.from does). -/
def hexDigitVal (c : Char) : Option Nat :=
  if 48 ≤ c.toNat ∧ c.toNat ≤ 57 then some (c.toNat - 48)
  else if 97 ≤ c.toNat ∧ c.toNat ≤ 102 then some (c.toNat - 87)
  else if 65 ≤ c.toNat ∧ c.toNat ≤ 70 then some (c.toNat - 55)
  else none

/-- Strict hex decoding: fails on an odd length or any non-hex character. -/
def hexDecodeStrict : List Char → Option (List Nat)
  | [] => some []
  | c1 :: c2 :: rest =>
    match hexDigitVal c1, hexDigitVal c2 with
    | some h, some l => (hexDecodeStrict rest).map (fun bs => (h * 16 + l) :: bs)
    | _, _ => none
  | _ => none

/-- Strict hex decoding of a string. -/
def hexDecodeStr (s : String) : Option (List Nat) :=
  hexDecodeStrict s.data

/-- Node Buffer.from with encoding hex: lenient, parses byte pairs from the
start and silently stops at the first invalid pair or odd tail.  It never
throws for a string input. -/
def nodeHexDecode : List Char → List Nat
  | c1 :: c2 :: rest =>
    match hexDigitVal c1, hexDigitVal c2 with
    | some h, some l => (h * 16 + l) :: nodeHexDecode rest
    | _, _ => []
  | _ => []

/-- Buffer.from(privateKey, hex) wrapped in the try/catch of the key
importer: for string inputs Node never throws, so the result is
always `some`; the `none` case exists only to mirror the catch branch of the
source. -/
def bufferFromHexOpt (s : String) : Option (List Nat) :=
  some (nodeHexDecode s.data)

/-- A string made of hex digits only. -/
def isHexStr (s : String) : Bool :=
  s.data.all (fun c => (hexDigitVal c).isSome)

/-- UTF-8 encoding of one code point (standard 1 to 4 byte forms, written
with division and remainder so that the arithmetic stays linear). -/
def utf8EncodeChar (n : Nat) : List Nat :=
  if n < 128 then [n]
  else if n < 2048 then [192 + n / 64, 128 + n % 64]
  else if n < 65536 then [224 + n / 4096, 128 + n / 64 % 64, 128 + n % 64]
  else [240 + n / 262144, 128 + n / 4096 % 64, 128 + n / 64 % 64, 128 + n % 64]

/-- UTF-8 bytes of a string, as produced by cipher.update(key, utf8, hex)
on the textual key. -/
def utf8Encode (s : String) : List Nat :=
  flatList (fun c => utf8EncodeChar c.toNat) s.data

/-- UTF-8 decoding to code points, fuelled by the number of code points
still allowed; fails on malformed sequences.  The fuel decreases by one per
decoded code point, so any fuel at least the byte count is enough. -/
def utf8DecodeAux : Nat → List Nat → Option (List Nat)
  | _, [] => some []
  | 0, _ :: _ => none
  | fuel + 1, b0 :: rest =>
    if b0 < 128 then (utf8DecodeAux fuel rest).map (fun l => b0 :: l)
    else if 192 ≤ b0 ∧ b0 < 224 then
      match rest with
      | b1 :: rest1 =>
        if 128 ≤ b1 ∧ b1 < 192 then
          (utf8DecodeAux fuel rest1).map (fun l => ((b0 - 192) * 64 + (b1 - 128)) :: l)
        else none
      | [] => none
    else if 224 ≤ b0 ∧ b0 < 240 then
      match rest with
      | b1 :: b2 :: rest2 =>
        if 128 ≤ b1 ∧ b1 < 192 ∧ 128 ≤ b2 ∧ b2 < 192 then
          (utf8DecodeAux fuel rest2).map
            (fun l => ((b0 - 224) * 4096 + (b1 - 128) * 64 + (b2 - 128)) :: l)
        else none
      | _ => none
    else if 240 ≤ b0 ∧ b0 < 248 then
      match rest with
      | b1 :: b2 :: b3 :: rest3 =>
        if 128 ≤ b1 ∧ b1 < 192 ∧ 128 ≤ b2 ∧ b2 < 192 ∧ 128 ≤ b3 ∧ b3 < 192 then
          (utf8DecodeAux fuel rest3).map
            (fun l =>
              ((b0 - 240) * 262144 + (b1 - 128) * 4096 + (b2 - 128) * 64
                + (b3 - 128)) :: l)
        else none
      | _ => none
    else none

/-- UTF-8 decoding to code points. -/
def utf8DecodeCps (l : List Nat) : Option (List Nat) :=
  utf8DecodeAux l.length l

/-- UTF-8 decoding to a string (Buffer.toString with encoding utf8 on
well-formed input). -/
def utf8DecodeStr (bytes : List Nat) : Option String :=
  (utf8DecodeCps bytes).map (fun cps => String.mk (cps.map Char.ofNat))

/-- The base58 alphabet used by bs58. -/
def base58Alphabet : List Char :=
  "123456789ABCDEFGHJKLMNPQRSTUVWXYZabcdefghijkmnopqrstuvwxyz".data

/-- Index of a character in the base58 alphabet; `none` for characters
outside the alphabet (bs58.decode throws on those). -/
def base58DigitVal (c : Char) : Option Nat :=
  base58Alphabet.findIdx? (fun a => a == c)

/-- Digit values of a whole string, failing on the first bad character. -/
def base58Digits : List Char → Option (List Nat)
  | [] => some []
  | c :: l =>
    match base58DigitVal c, base58Digits l with
    | some d, some ds => some (d :: ds)
    | _, _ => none

/-- Big-endian byte expansion of a natural number (empty for zero). -/
def natToBytesBE (n : Nat) : List Nat :=
  if n = 0 then [] else natToBytesBE (n / 256) ++ [n % 256]
termination_by n
decreasing_by exact Nat.div_lt_self (Nat.pos_of_ne_zero (by assumption)) (by omega)

/-- bs58.decode: fails on any character outside the alphabet, otherwise
base-58 positional value with one leading zero byte per leading digit 1. -/
def base58Decode (s : String) : Option (List Nat) :=
  (base58Digits s.data).map (fun digits =>
    let n := digits.foldl (fun acc d => acc * 58 + d) 0
    let leading := (s.data.takeWhile (fun c => c == '1')).length
    List.replicate leading 0 ++ natToBytesBE n)

/-- Base-58 digit expansion of a natural number (empty for zero). -/
def natToBase58 (n : Nat) : List Char :=
  if n = 0 then [] else natToBase58 (n / 58) ++ [base58Alphabet.getD (n % 58) '1']
termination_by n
decreasing_by exact Nat.div_lt_self (Nat.pos_of_ne_zero (by assumption)) (by omega)

/-- bs58.encode, used for the textual public key and for base58Key. -/
def base58Encode (l : List Nat) : String :=
  String.mk
    (List.replicate ((l.takeWhile (fun b => b == 0)).length) '1'
      ++ natToBase58 (l.foldl (fun acc b => acc * 256 + b) 0))

/-! ## The abstract cryptographic backend -/

/-- Abstraction of the external cryptographic primitives the source calls
(Node crypto, bip39, ed25519-hd-key, the nacl layer of solana web3).  The
cipher is given in its GCM stream form: a keystream indexed by derived key
and IV that is XOR-ed with the plaintext, plus a tag function over the
ciphertext.  The propositional fields record only the structural facts the
source relies on: byte outputs are bytes, the derived path key is 32 bytes,
and freshly generated mnemonics validate. -/
structure CryptoBackend where
  pbkdf2 : String → List Nat → Nat → Nat → String → List Nat
  keystream : List Nat → List Nat → Nat → Nat
  ghash : List Nat → List Nat → List Nat → List Nat
  validateMnemonic : String → Bool
  generateMnemonic : Nat → List Nat → String
  mnemonicToSeed : String → List Nat
  derivePath : String → String → List Nat
  pubFromSeed : List Nat → List Nat
  keystream_lt : ∀ k iv i, keystream k iv i < 256
  ghash_lt : ∀ k iv ct b, b ∈ ghash k iv ct → b < 256
  derivePath_len : ∀ p s, (derivePath p s).length = 32
  validate_generate : ∀ bits e, validateMnemonic (generateMnemonic bits e) = true

/-- XOR of a byte list with a keystream starting at index `i`. -/
def xorStream (s : Nat → Nat) : Nat → List Nat → List Nat
  | _, [] => []
  | i, b :: rest => (b ^^^ s i) :: xorStream s (i + 1) rest

/-- AES-256-GCM in its stream form: ciphertext is plaintext XOR keystream. -/
def gcmEncrypt (B : CryptoBackend) (key iv plain : List Nat) : List Nat :=
  xorStream (B.keystream key iv) 0 plain

/-! ## Credential vault: encryptKey (source) and decrypt (spec-modelled) -/

/-- The persisted encrypted blob returned by encryptKey: four hex strings. -/
structure EncryptedEntry where
  encrypted : String
  salt : String
  iv : String
  authTag : String
deriving DecidableEq

/-- Embedding of encryptKey (src/openclaw-setup.js lines 88 to 103): fresh
32-byte salt and 16-byte IV from the random tape, pbkdf2Sync(password, salt,
100000, 32, sha256), aes-256-gcm over the UTF-8 bytes of the key string,
authentication tag captured, all four fields hex encoded.  Returns the
entry together with the advanced tape position. -/
def encryptKey (B : CryptoBackend) (key password : String) (tape : Nat → Nat)
    (pos : Nat) : EncryptedEntry × Nat :=
  let salt := randBytes 32 tape pos
  let iv := randBytes 16 tape (pos + 32)
  let derivedKey := B.pbkdf2 password salt 100000 32 "sha256"
  let plain := utf8Encode key
  let encrypted := gcmEncrypt B derivedKey iv plain
  let authTag := B.ghash derivedKey iv encrypted
  ({ encrypted := hexEncodeStr encrypted
     salt := hexEncodeStr salt
     iv := hexEncodeStr iv
     authTag := hexEncodeStr authTag }, pos + 48)

/-- Failure mode of decryption. -/
inductive VaultError where
  | wrongPasswordOrCorrupted
deriving DecidableEq

/-- Modelled from the spec: the repository has no decryption routine under
src (only encryptKey exists); spec section 4.4 defines decrypt(entry,
password) as re-deriving the symmetric key from the password and the stored
salt with the same iteration count (100000, sha256), authenticated
decryption with the stored IV and tag, failing with WrongPasswordOrCorrupted
when the tag does not verify. -/
def decryptKey (B : CryptoBackend) (entry : EncryptedEntry) (password : String) :
    Except VaultError String :=
  match hexDecodeStr entry.salt, hexDecodeStr entry.iv,
      hexDecodeStr entry.encrypted, hexDecodeStr entry.authTag with
  | some salt, some iv, some ct, some tag =>
    let derivedKey := B.pbkdf2 password salt 100000 32 "sha256"
    if B.ghash derivedKey iv ct = tag then
      match utf8DecodeStr (gcmEncrypt B derivedKey iv ct) with
      | some plain => .ok plain
      | none => .error .wrongPasswordOrCorrupted
    else .error .wrongPasswordOrCorrupted
  | _, _, _, _ => .error .wrongPasswordOrCorrupted

/-! ## Wallet lifecycle -/

/-- Error taxonomy of the wallet constructors.  invalidKeyFormat is the
throw of importFromPrivateKey when both decodings fail; invalidKeyLength is
the bad secret key size throw of Keypair.fromSecretKey; invalidSecretKey is
its public-key consistency throw; invalidMnemonic is the invalid seed
phrase throw of importFromSeedPhrase; badSeedSize is the bad seed size
throw of Keypair.fromSeed. -/
inductive WalletError where
  | invalidKeyFormat
  | invalidKeyLength
  | invalidSecretKey
  | invalidMnemonic
  | badSeedSize
deriving DecidableEq

/-- A nacl keypair: 32-byte public key and 64-byte secret key. -/
structure Keypair where
  publicKey : List Nat
  secretKey : List Nat
deriving DecidableEq

/-- The in-memory wallet record produced by the wallet constructors.  The
encryptedKey field mirrors the field connectHardwareWallet sets to null; no
constructor ever fills it and the persistence tail never reads it. -/
structure WalletData where
  publicKey : String
  type : Option String
  network : Option String
  base58Key : Option String
  rawSecretKey : Option (List Nat)
  seedPhrase : Option String
  encryptedKey : Option EncryptedEntry
deriving DecidableEq

/-- Keypair.fromSeed via nacl sign.keyPair.fromSeed: requires a 32-byte
seed, secret key is seed concatenated with the derived public key. -/
def keypairFromSeed (B : CryptoBackend) (seed : List Nat) :
    Except WalletError Keypair :=
  if seed.length = 32 then
    .ok { publicKey := B.pubFromSeed seed, secretKey := seed ++ B.pubFromSeed seed }
  else .error .badSeedSize

/-- Keypair.fromSecretKey of solana web3: length must be 64 (bad secret key
size), then the embedded public key must match the one computed from the
private half (provided secretKey is invalid). -/
def keypairFromSecretKey (B : CryptoBackend) (sk : List Nat) :
    Except WalletError Keypair :=
  if sk.length = 64 then
    if sk.drop 32 = B.pubFromSeed (sk.take 32) then
      .ok { publicKey := sk.drop 32, secretKey := sk }
    else .error .invalidSecretKey
  else .error .invalidKeyLength

/-- The derivation path m/44h/501h/0h/0h where h is the hardened marker
(ASCII 39), built characterwise to keep the source constant verbatim. -/
def solanaDerivationPath : String :=
  String.mk ['m', '/', '4', '4', Char.ofNat 39, '/', '5', '0', '1', Char.ofNat 39,
    '/', '0', Char.ofNat 39, '/', '0', Char.ofNat 39]

/-- The wallet record built by importFromPrivateKey (note base58Key keeps
the raw user input string). -/
def importedWalletRecord (privateKey : String) (kp : Keypair) : WalletData :=
  { publicKey := base58Encode kp.publicKey
    type := some "imported"
    network := some "devnet"
    base58Key := some privateKey
    rawSecretKey := some kp.secretKey
    seedPhrase := none
    encryptedKey := none }

/-- Embedding of importFromPrivateKey (src lines 1015 to 1045): try
bs58.decode, on throw fall back to Buffer.from hex (which never throws),
with the dead catch branch throwing invalidKeyFormat; then
Keypair.fromSecretKey on the decoded bytes. -/
def importFromPrivateKey (B : CryptoBackend) (privateKey : String) :
    Except WalletError WalletData :=
  match (match base58Decode privateKey with
         | some bytes => some bytes
         | none => bufferFromHexOpt privateKey) with
  | some secretKey =>
    match keypairFromSecretKey B secretKey with
    | .ok kp => .ok (importedWalletRecord privateKey kp)
    | .error e => .error e
  | none => .error .invalidKeyFormat

/-- Embedding of importFromSeedPhrase (src lines 1047 to 1074):
bip39.validateMnemonic gate, then mnemonicToSeedSync, derivePath on the hex
of the seed, Keypair.fromSeed on the first 32 bytes of the derived key. -/
def importFromSeedPhrase (B : CryptoBackend) (seedPhrase : String) :
    Except WalletError WalletData :=
  if B.validateMnemonic seedPhrase then
    let seed := B.mnemonicToSeed seedPhrase
    let derivedSeed := (B.derivePath solanaDerivationPath (hexEncodeStr seed)).take 32
    match keypairFromSeed B derivedSeed with
    | .ok kp =>
      .ok { publicKey := base58Encode kp.publicKey
            type := some "imported"
            network := some "devnet"
            base58Key := some (base58Encode kp.secretKey)
            rawSecretKey := some kp.secretKey
            seedPhrase := none
            encryptedKey := none }
    | .error e => .error e
  else .error .invalidMnemonic

/-- Embedding of generateNewWallet (src lines 983 to 1013):
bip39.generateMnemonic(128) from fresh entropy (16 tape bytes), then the
same seed, derive-path and fromSeed pipeline as the mnemonic import. -/
def generateNewWallet (B : CryptoBackend) (tape : Nat → Nat) (pos : Nat) :
    Except WalletError WalletData :=
  let entropy := randBytes 16 tape pos
  let seedPhrase := B.generateMnemonic 128 entropy
  let seed := B.mnemonicToSeed seedPhrase
  let derivedSeed := (B.derivePath solanaDerivationPath (hexEncodeStr seed)).take 32
  match keypairFromSeed B derivedSeed with
  | .ok kp =>
    .ok { publicKey := base58Encode kp.publicKey
          type := some "local"
          network := some "devnet"
          base58Key := some (base58Encode kp.secretKey)
          rawSecretKey := some kp.secretKey
          seedPhrase := some seedPhrase
          encryptedKey := none }
  | .error e => .error e

/-- Embedding of connectHardwareWallet (src lines 1076 to 1093): the record
holds only the caller-supplied public key, type hardware, network devnet and
a null encryptedKey; there is no secret material. -/
def connectHardwareWallet (publicKey : String) : WalletData :=
  { publicKey := publicKey
    type := some "hardware"
    network := some "devnet"
    base58Key := none
    rawSecretKey := none
    seedPhrase := none
    encryptedKey := none }

/-- Projection used to compare wallet results by public key. -/
def walletPublicKey : Except WalletError WalletData → Except WalletError String
  | .ok w => .ok w.publicKey
  | .error e => .error e

/-! ## Persistence tail of stepWalletSetup -/

/-- One level of the persisted JSON: a string, null, or a flat object of
string fields (the encryptedKey sub-object). -/
inductive JVal where
  | jstr : String → JVal
  | jnull : JVal
  | jobj : List (String × String) → JVal
deriving DecidableEq

/-- JS short-circuit or on a possibly absent string: an absent or empty
string falls back to the default (empty strings are falsy in JS). -/
def jsOrDefault (o : Option String) (d : String) : String :=
  match o with
  | some s => if s = "" then d else s
  | none => d

/-- The walletConfig object literal written to wallet.json (src lines 916
to 931): exactly the five fields publicKey, network, createdAt, type and
encryptedKey, the last being null or the four hex fields of the entry. -/
def persistedWallet (wd : WalletData) (enc : Option EncryptedEntry)
    (createdAt : String) : List (String × JVal) :=
  [("publicKey", JVal.jstr wd.publicKey),
   ("network", JVal.jstr (jsOrDefault wd.network "devnet")),
   ("createdAt", JVal.jstr createdAt),
   ("type", JVal.jstr (jsOrDefault wd.type "local")),
   ("encryptedKey",
     match enc with
     | none => JVal.jnull
     | some e => JVal.jobj
         [("encrypted", e.encrypted), ("salt", e.salt), ("iv", e.iv),
          ("authTag", e.authTag)])]

/-- All field names of the persisted object, nested object included. -/
def persistedKeys (l : List (String × JVal)) : List String :=
  flatList
    (fun kv => kv.1 :: (match kv.2 with
      | JVal.jobj fields => fields.map (fun f => f.1)
      | _ => []))
    l

/-- Observable interactions of the securing phase. -/
inductive SetupEvent where
  | passwordPrompted
  | encryptInvoked
deriving DecidableEq

/-- Password collection of stepWalletSetup (src lines 893 to 907): with
inquirer the validate callback re-prompts until the input has at least 8
characters; the readline fallback prompt (src lines 221 to 252) ignores the
validate callback entirely and returns the first raw input. -/
def collectPassword (hasInquirer : Bool) (inputs : List String) : Option String :=
  if hasInquirer then inputs.find? (fun s => decide (8 ≤ s.length))
  else inputs.head?

/-- The securing-and-persistence tail of stepWalletSetup (src lines 887 to
931): when the wallet record carries a raw secret key, collect a password,
hex the secret key and encrypt it, then persist; otherwise persist with a
null encryptedKey and no password interaction.  The event list records the
password prompt and the encryptKey invocation; `none` models the inquirer
loop never terminating because no offered input validates. -/
def stepWalletSetupSecure (B : CryptoBackend) (hasInquirer : Bool)
    (wd : WalletData) (inputs : List String) (tape : Nat → Nat) (pos : Nat)
    (createdAt : String) :
    Option (List (String × JVal) × List SetupEvent) :=
  match wd.rawSecretKey with
  | some raw =>
    match collectPassword hasInquirer inputs with
    | some password =>
      let secretKeyHex := hexEncodeStr raw
      let enc := (encryptKey B secretKeyHex password tape pos).1
      some (persistedWallet wd (some enc) createdAt,
        [SetupEvent.passwordPrompted, SetupEvent.encryptInvoked])
    | none => none
  | none => some (persistedWallet wd none createdAt, [])

/-! ## A concrete executable backend -/

/-- Sum of a byte list, used by the model backend. -/
def byteSum (l : List Nat) : Nat :=
  l.foldl (fun a b => a + b) 0

/-- A concrete executable instance of the backend, strong enough to satisfy
the structural fields and to evaluate every statement on concrete inputs.
Mnemonics of the model are the strings produced by its generator: the
three-character marker m n colon followed by the entropy in hex. -/
def modelBackend : CryptoBackend where
  pbkdf2 := fun pw salt iter len _dg =>
    (List.range len).map (fun i => (pw.length + byteSum salt + iter + i) % 256)
  keystream := fun k iv i => (byteSum k + 3 * byteSum iv + 7 * i + 1) % 256
  ghash := fun k iv ct =>
    (List.range 16).map (fun i => (byteSum k + byteSum iv + byteSum ct + 5 * i) % 256)
  validateMnemonic := fun s => decide (s.data.take 3 = ['m', 'n', ':'])
  generateMnemonic := fun _bits e => "mn:" ++ hexEncodeStr e
  mnemonicToSeed := fun s => (List.range 64).map (fun i => (s.length + i) % 256)
  derivePath := fun p s => (List.range 32).map (fun i => (p.length + s.length + i) % 256)
  pubFromSeed := fun seed => seed.map (fun b => (b + 1) % 256)
  keystream_lt := fun _ _ _ => Nat.mod_lt _ (by omega)
  ghash_lt := by
    intro k iv ct b hb
    simp only [List.mem_map] at hb
    obtain ⟨i, _, rfl⟩ := hb
    exact Nat.mod_lt _ (by omega)
  derivePath_len := by intro p s; simp
  validate_generate := by
    intro bits e
    simp only [String.data_append]
    rfl

/-- A concrete random tape for witnesses. -/
def tape0 : Nat → Nat :=
  fun i => (i * i + 3 * i + 1) % 251

/-! ## Lemmas about the hex codec -/

theorem hexDigitVal_hexDigitChar (n : Nat) (h : n < 16) :
    hexDigitVal (hexDigitChar n) = some n := by
  interval_cases n <;> decide

theorem hexDigitChar_toNat_lt (n : Nat) (h : n < 16) :
    (hexDigitChar n).toNat < 128 := by
  interval_cases n <;> decide

theorem hexDecodeStrict_hexEncodeBytes (l : List Nat) (h : ∀ b ∈ l, b < 256) :
    hexDecodeStrict (hexEncodeBytes l) = some l := by
  induction l with
  | nil => rfl
  | cons b rest ih =>
    have hb : b < 256 := h b (List.mem_cons_self b rest)
    have hrest : ∀ x ∈ rest, x < 256 := fun x hx => h x (List.mem_cons_of_mem b hx)
    have hhi : b / 16 < 16 := by omega
    have hlo : b % 16 < 16 := by omega
    show hexDecodeStrict
      (hexDigitChar (b / 16) :: hexDigitChar (b % 16) :: hexEncodeBytes rest) = _
    rw [hexDecodeStrict, hexDigitVal_hexDigitChar _ hhi, hexDigitVal_hexDigitChar _ hlo]
    simp only [ih hrest, Option.map_some]
    have hb' : b / 16 * 16 + b % 16 = b := by omega
    rw [hb']
    rfl

theorem hexDecodeStr_hexEncodeStr (l : List Nat) (h : ∀ b ∈ l, b < 256) :
    hexDecodeStr (hexEncodeStr l) = some l := by
  show hexDecodeStrict (hexEncodeBytes l) = some l
  exact hexDecodeStrict_hexEncodeBytes l h

theorem hexEncodeBytes_length (l : List Nat) :
    (hexEncodeBytes l).length = 2 * l.length := by
  induction l with
  | nil => rfl
  | cons b rest ih =>
    show ([hexDigitChar (b / 16), hexDigitChar (b % 16)] ++ hexEncodeBytes rest).length = _
    simp [ih]
    omega

theorem hexEncodeStr_length (l : List Nat) :
    (hexEncodeStr l).length = 2 * l.length := by
  show (hexEncodeBytes l).length = 2 * l.length
  exact hexEncodeBytes_length l

theorem hexEncodeStr_injOn (l1 l2 : List Nat) (h1 : ∀ b ∈ l1, b < 256)
    (h2 : ∀ b ∈ l2, b < 256) (heq : hexEncodeStr l1 = hexEncodeStr l2) : l1 = l2 := by
  have d1 := hexDecodeStr_hexEncodeStr l1 h1
  have d2 := hexDecodeStr_hexEncodeStr l2 h2
  rw [heq, d2] at d1
  exact ((Option.some.injEq _ _).mp d1).symm

theorem isHexStr_hexEncodeStr (l : List Nat) (h : ∀ b ∈ l, b < 256) :
    isHexStr (hexEncodeStr l) = true := by
  show (hexEncodeBytes l).all _ = true
  induction l with
  | nil => rfl
  | cons b rest ih =>
    have hb : b < 256 := h b (List.mem_cons_self b rest)
    have hrest : ∀ x ∈ rest, x < 256 := fun x hx => h x (List.mem_cons_of_mem b hx)
    show ([hexDigitChar (b / 16), hexDigitChar (b % 16)] ++ hexEncodeBytes rest).all _ = true
    rw [List.all_append]
    simp only [List.all_cons, List.all_nil, Bool.and_true, Bool.and_eq_true]
    refine ⟨⟨?_, ?_⟩, ih hrest⟩
    · rw [hexDigitVal_hexDigitChar _ (by omega : b / 16 < 16)]; rfl
    · rw [hexDigitVal_hexDigitChar _ (by omega : b % 16 < 16)]; rfl

/-! ## Lemmas about the keystream cipher -/

theorem xorStream_length (s : Nat → Nat) (i : Nat) (l : List Nat) :
    (xorStream s i l).length = l.length := by
  induction l generalizing i with
  | nil => rfl
  | cons b rest ih => simp [xorStream, ih]

theorem xorStream_involution (s : Nat → Nat) (i : Nat) (l : List Nat) :
    xorStream s i (xorStream s i l) = l := by
  induction l generalizing i with
  | nil => rfl
  | cons b rest ih =>
    show ((b ^^^ s i) ^^^ s i) :: xorStream s (i + 1) (xorStream s (i + 1) rest) = _
    rw [Nat.xor_assoc, Nat.xor_self, Nat.xor_zero, ih]

theorem xorStream_lt (s : Nat → Nat) (hs : ∀ i, s i < 256) (i : Nat) (l : List Nat)
    (hl : ∀ b ∈ l, b < 256) : ∀ b ∈ xorStream s i l, b < 256 := by
  induction l generalizing i with
  | nil => intro b hb; simp [xorStream] at hb
  | cons x rest ih =>
    intro b hb
    rw [show xorStream s i (x :: rest) = (x ^^^ s i) :: xorStream s (i + 1) rest from rfl] at hb
    rcases List.mem_cons.mp hb with h | h
    · subst h
      have hx : x < 2 ^ 8 := hl x (List.mem_cons_self x rest)
      have hsi : s i < 2 ^ 8 := hs i
      exact Nat.xor_lt_two_pow hx hsi
    · exact ih (i + 1) (fun y hy => hl y (List.mem_cons_of_mem x hy)) b h

theorem gcmEncrypt_length (B : CryptoBackend) (k iv p : List Nat) :
    (gcmEncrypt B k iv p).length = p.length :=
  xorStream_length _ 0 p

theorem gcmEncrypt_involution (B : CryptoBackend) (k iv p : List Nat) :
    gcmEncrypt B k iv (gcmEncrypt B k iv p) = p :=
  xorStream_involution _ 0 p

theorem gcmEncrypt_lt (B : CryptoBackend) (k iv p : List Nat)
    (hp : ∀ b ∈ p, b < 256) : ∀ b ∈ gcmEncrypt B k iv p, b < 256 :=
  xorStream_lt _ (B.keystream_lt k iv) 0 p hp

/-! ## Lemmas about the random tape -/

theorem randBytes_length (n : Nat) (tape : Nat → Nat) (pos : Nat) :
    (randBytes n tape pos).length = n := by
  simp [randBytes]

theorem randBytes_lt (n : Nat) (tape : Nat → Nat) (pos : Nat) :
    ∀ b ∈ randBytes n tape pos, b < 256 := by
  intro b hb
  simp only [randBytes, List.mem_map] at hb
  obtain ⟨i, _, rfl⟩ := hb
  exact Nat.mod_lt _ (by omega)

/-! ## Lemmas about the UTF-8 codec -/

theorem utf8EncodeChar_lt (n : Nat) (hn : n < 1114112) :
    ∀ b ∈ utf8EncodeChar n, b < 256 := by
  intro b hb
  unfold utf8EncodeChar at hb
  by_cases h1 : n < 128
  · simp only [if_pos h1, List.mem_singleton] at hb; omega
  · rw [if_neg h1] at hb
    by_cases h2 : n < 2048
    · simp only [if_pos h2, List.mem_cons, List.not_mem_nil, or_false] at hb
      rcases hb with rfl | rfl <;> omega
    · rw [if_neg h2] at hb
      by_cases h3 : n < 65536
      · simp only [if_pos h3, List.mem_cons, List.not_mem_nil, or_false] at hb
        rcases hb with rfl | rfl | rfl <;> omega
      · simp only [if_neg h3, List.mem_cons, List.not_mem_nil, or_false] at hb
        rcases hb with rfl | rfl | rfl | rfl <;> omega

theorem utf8Encode_lt (s : String) : ∀ b ∈ utf8Encode s, b < 256 := by
  show ∀ b ∈ flatList (fun c => utf8EncodeChar c.toNat) s.data, b < 256
  induction s.data with
  | nil => intro b hb; simp [flatList] at hb
  | cons c rest ih =>
    intro b hb
    rw [show flatList (fun c => utf8EncodeChar c.toNat) (c :: rest)
        = utf8EncodeChar c.toNat ++ flatList (fun c => utf8EncodeChar c.toNat) rest
        from rfl] at hb
    rcases List.mem_append.mp hb with h | h
    · have hc : c.toNat < 1114112 := by
        have hv := c.valid
        rcases hv with hv | ⟨_, hv2⟩
        · exact Nat.lt_trans hv (by decide)
        · exact hv2
      exact utf8EncodeChar_lt c.toNat hc b h
    · exact ih b h

theorem utf8DecodeAux_encodeChar_append (n : Nat) (hn : n < 1114112)
    (fuel : Nat) (rest : List Nat) :
    utf8DecodeAux (fuel + 1) (utf8EncodeChar n ++ rest)
      = (utf8DecodeAux fuel rest).map (fun l => n :: l) := by
  by_cases h1 : n < 128
  · rw [show utf8EncodeChar n = [n] from by unfold utf8EncodeChar; rw [if_pos h1]]
    show (if n < 128 then (utf8DecodeAux fuel rest).map (fun l => n :: l) else _) = _
    rw [if_pos h1]
  · by_cases h2 : n < 2048
    · rw [show utf8EncodeChar n = [192 + n / 64, 128 + n % 64] from by
        unfold utf8EncodeChar; rw [if_neg h1, if_pos h2]]
      show (if 192 + n / 64 < 128 then _
        else if 192 ≤ 192 + n / 64 ∧ 192 + n / 64 < 224 then
          if 128 ≤ 128 + n % 64 ∧ 128 + n % 64 < 192 then
            (utf8DecodeAux fuel rest).map
              (fun l => ((192 + n / 64 - 192) * 64 + (128 + n % 64 - 128)) :: l)
          else none
        else _) = _
      rw [if_neg (by omega), if_pos (by omega), if_pos (by omega)]
      have harith : (192 + n / 64 - 192) * 64 + (128 + n % 64 - 128) = n := by omega
      rw [harith]
    · by_cases h3 : n < 65536
      · rw [show utf8EncodeChar n = [224 + n / 4096, 128 + n / 64 % 64, 128 + n % 64]
          from by unfold utf8EncodeChar; rw [if_neg h1, if_neg h2, if_pos h3]]
        show (if 224 + n / 4096 < 128 then _
          else if 192 ≤ 224 + n / 4096 ∧ 224 + n / 4096 < 224 then _
          else if 224 ≤ 224 + n / 4096 ∧ 224 + n / 4096 < 240 then
            if 128 ≤ 128 + n / 64 % 64 ∧ 128 + n / 64 % 64 < 192
                ∧ 128 ≤ 128 + n % 64 ∧ 128 + n % 64 < 192 then
              (utf8DecodeAux fuel rest).map
                (fun l => ((224 + n / 4096 - 224) * 4096 + (128 + n / 64 % 64 - 128) * 64
                  + (128 + n % 64 - 128)) :: l)
            else none
          else _) = _
        rw [if_neg (by omega), if_neg (by omega), if_pos (by omega), if_pos (by omega)]
        have harith : (224 + n / 4096 - 224) * 4096 + (128 + n / 64 % 64 - 128) * 64
            + (128 + n % 64 - 128) = n := by omega
        rw [harith]
      · rw [show utf8EncodeChar n
            = [240 + n / 262144, 128 + n / 4096 % 64, 128 + n / 64 % 64, 128 + n % 64]
          from by unfold utf8EncodeChar; rw [if_neg h1, if_neg h2, if_neg h3]]
        show (if 240 + n / 262144 < 128 then _
          else if 192 ≤ 240 + n / 262144 ∧ 240 + n / 262144 < 224 then _
          else if 224 ≤ 240 + n / 262144 ∧ 240 + n / 262144 < 240 then _
          else if 240 ≤ 240 + n / 262144 ∧ 240 + n / 262144 < 248 then
            if 128 ≤ 128 + n / 4096 % 64 ∧ 128 + n / 4096 % 64 < 192
                ∧ 128 ≤ 128 + n / 64 % 64 ∧ 128 + n / 64 % 64 < 192
                ∧ 128 ≤ 128 + n % 64 ∧ 128 + n % 64 < 192 then
              (utf8DecodeAux fuel rest).map
                (fun l => ((240 + n / 262144 - 240) * 262144
                  + (128 + n / 4096 % 64 - 128) * 4096
                  + (128 + n / 64 % 64 - 128) * 64 + (128 + n % 64 - 128)) :: l)
            else none
          else _) = _
        rw [if_neg (by omega), if_neg (by omega), if_neg (by omega),
          if_pos (by omega), if_pos (by omega)]
        have harith : (240 + n / 262144 - 240) * 262144
            + (128 + n / 4096 % 64 - 128) * 4096
            + (128 + n / 64 % 64 - 128) * 64 + (128 + n % 64 - 128) = n := by omega
        rw [harith]

theorem utf8DecodeAux_encode_chars (cs : List Char) (fuel : Nat)
    (hfuel : cs.length ≤ fuel) :
    utf8DecodeAux fuel (flatList (fun c => utf8EncodeChar c.toNat) cs)
      = some (cs.map Char.toNat) := by
  induction cs generalizing fuel with
  | nil =>
    show utf8DecodeAux fuel [] = some []
    cases fuel <;> rfl
  | cons c rest ih =>
    have hc : c.toNat < 1114112 := by
      have hv := c.valid
      rcases hv with hv | ⟨_, hv2⟩
      · exact Nat.lt_trans hv (by decide)
      · exact hv2
    obtain ⟨fuel', rfl⟩ : ∃ f, fuel = f + 1 := by
      cases fuel with
      | zero => simp at hfuel
      | succ f => exact ⟨f, rfl⟩
    rw [show flatList (fun c => utf8EncodeChar c.toNat) (c :: rest)
        = utf8EncodeChar c.toNat ++ flatList (fun c => utf8EncodeChar c.toNat) rest
        from rfl]
    rw [utf8DecodeAux_encodeChar_append c.toNat hc]
    rw [ih fuel' (by simpa using Nat.le_of_succ_le_succ hfuel)]
    rfl

theorem utf8EncodeChar_ne_nil (n : Nat) : utf8EncodeChar n ≠ [] := by
  unfold utf8EncodeChar
  by_cases h1 : n < 128
  · simp [if_pos h1]
  · rw [if_neg h1]
    by_cases h2 : n < 2048
    · simp [if_pos h2]
    · rw [if_neg h2]
      by_cases h3 : n < 65536
      · simp [if_pos h3]
      · simp [if_neg h3]

theorem length_le_flat_encode (cs : List Char) :
    cs.length ≤ (flatList (fun c => utf8EncodeChar c.toNat) cs).length := by
  induction cs with
  | nil => simp [flatList]
  | cons c rest ih =>
    rw [show flatList (fun c => utf8EncodeChar c.toNat) (c :: rest)
        = utf8EncodeChar c.toNat ++ flatList (fun c => utf8EncodeChar c.toNat) rest
        from rfl]
    rw [List.length_append, List.length_cons]
    have hne : 1 ≤ (utf8EncodeChar c.toNat).length := by
      cases hcase : utf8EncodeChar c.toNat with
      | nil => exact absurd hcase (utf8EncodeChar_ne_nil c.toNat)
      | cons x xs => simp
    omega

theorem utf8DecodeCps_encode_chars (cs : List Char) :
    utf8DecodeCps (flatList (fun c => utf8EncodeChar c.toNat) cs)
      = some (cs.map Char.toNat) :=
  utf8DecodeAux_encode_chars cs _ (length_le_flat_encode cs)

theorem utf8DecodeStr_utf8Encode (s : String) :
    utf8DecodeStr (utf8Encode s) = some s := by
  show (utf8DecodeCps (flatList (fun c => utf8EncodeChar c.toNat) s.data)).map _ = _
  rw [utf8DecodeCps_encode_chars s.data]
  show some (String.mk ((s.data.map Char.toNat).map Char.ofNat)) = some s
  rw [List.map_map]
  have hcomp : (Char.ofNat ∘ Char.toNat) = id := by
    funext c
    exact Char.ofNat_toNat c
  rw [hcomp, List.map_id]

theorem decryptKey_encryptKey_mk (B : CryptoBackend) (p k : String)
    (saltB ivB : List Nat) (hs : ∀ b ∈ saltB, b < 256) (hi : ∀ b ∈ ivB, b < 256) :
    decryptKey B
      { encrypted := hexEncodeStr
          (gcmEncrypt B (B.pbkdf2 p saltB 100000 32 "sha256") ivB (utf8Encode k))
        salt := hexEncodeStr saltB
        iv := hexEncodeStr ivB
        authTag := hexEncodeStr (B.ghash (B.pbkdf2 p saltB 100000 32 "sha256") ivB
          (gcmEncrypt B (B.pbkdf2 p saltB 100000 32 "sha256") ivB (utf8Encode k))) } p
      = Except.ok k := by
  have hc : ∀ b ∈ gcmEncrypt B (B.pbkdf2 p saltB 100000 32 "sha256") ivB
      (utf8Encode k), b < 256 :=
    gcmEncrypt_lt _ _ _ _ (utf8Encode_lt k)
  have ht : ∀ b ∈ B.ghash (B.pbkdf2 p saltB 100000 32 "sha256") ivB
      (gcmEncrypt B (B.pbkdf2 p saltB 100000 32 "sha256") ivB (utf8Encode k)), b < 256 :=
    fun b hb => B.ghash_lt _ _ _ b hb
  simp only [decryptKey]
  rw [hexDecodeStr_hexEncodeStr saltB hs, hexDecodeStr_hexEncodeStr ivB hi,
    hexDecodeStr_hexEncodeStr _ hc, hexDecodeStr_hexEncodeStr _ ht]
  show (if B.ghash (B.pbkdf2 p saltB 100000 32 "sha256") ivB
      (gcmEncrypt B (B.pbkdf2 p saltB 100000 32 "sha256") ivB (utf8Encode k))
      = B.ghash (B.pbkdf2 p saltB 100000 32 "sha256") ivB
        (gcmEncrypt B (B.pbkdf2 p saltB 100000 32 "sha256") ivB (utf8Encode k)) then
      match utf8DecodeStr (gcmEncrypt B (B.pbkdf2 p saltB 100000 32 "sha256") ivB
        (gcmEncrypt B (B.pbkdf2 p saltB 100000 32 "sha256") ivB (utf8Encode k))) with
      | some plain => Except.ok plain
      | none => Except.error VaultError.wrongPasswordOrCorrupted
    else Except.error VaultError.wrongPasswordOrCorrupted) = Except.ok k
  rw [if_pos rfl, gcmEncrypt_involution, utf8DecodeStr_utf8Encode]

theorem utf8Encode_mk_length (cs : List Char) (h : ∀ c ∈ cs, c.toNat < 128) :
    (utf8Encode (String.mk cs)).length = cs.length := by
  show (flatList (fun c => utf8EncodeChar c.toNat) cs).length = cs.length
  induction cs with
  | nil => rfl
  | cons c rest ih =>
    have hc : c.toNat < 128 := h c (List.mem_cons_self c rest)
    rw [show flatList (fun c => utf8EncodeChar c.toNat) (c :: rest)
        = utf8EncodeChar c.toNat ++ flatList (fun c => utf8EncodeChar c.toNat) rest
        from rfl]
    rw [List.length_append,
      show utf8EncodeChar c.toNat = [c.toNat] from by unfold utf8EncodeChar; rw [if_pos hc],
      ih (fun x hx => h x (List.mem_cons_of_mem c hx))]
    simp [Nat.add_comm]

theorem hexEncodeBytes_toNat_lt (l : List Nat) (h : ∀ b ∈ l, b < 256) :
    ∀ c ∈ hexEncodeBytes l, c.toNat < 128 := by
  induction l with
  | nil => intro c hc; simp [hexEncodeBytes, flatList] at hc
  | cons b rest ih =>
    intro c hc
    have hb : b < 256 := h b (List.mem_cons_self b rest)
    rw [show hexEncodeBytes (b :: rest)
        = hexDigitChar (b / 16) :: hexDigitChar (b % 16) :: hexEncodeBytes rest from rfl] at hc
    rcases List.mem_cons.mp hc with rfl | hc2
    · exact hexDigitChar_toNat_lt _ (by omega)
    · rcases List.mem_cons.mp hc2 with rfl | hc3
      · exact hexDigitChar_toNat_lt _ (by omega)
      · exact ih (fun x hx => h x (List.mem_cons_of_mem b hx)) c hc3

theorem keypairFromSecretKey_ne_format (B : CryptoBackend) (sk : List Nat) :
    keypairFromSecretKey B sk ≠ Except.error WalletError.invalidKeyFormat := by
  unfold keypairFromSecretKey
  by_cases h1 : sk.length = 64
  · rw [if_pos h1]
    by_cases h2 : sk.drop 32 = B.pubFromSeed (sk.take 32)
    · rw [if_pos h2]; intro h; exact Except.noConfusion h
    · rw [if_neg h2]; intro h; injection h with h; exact WalletError.noConfusion h
  · rw [if_neg h1]; intro h; injection h with h; exact WalletError.noConfusion h

theorem importFromPrivateKey_eq (B : CryptoBackend) (s : String) :
    importFromPrivateKey B s
      = match keypairFromSecretKey B
          (match base58Decode s with
           | some b => b
           | none => nodeHexDecode s.data) with
        | .ok kp => .ok (importedWalletRecord s kp)
        | .error e => .error e := by
  unfold importFromPrivateKey bufferFromHexOpt
  cases base58Decode s <;> rfl

/-! ## Claim theorems -/

/-- C1: for every password p and every key string k, decrypting the result
of encryptKey(k, p) with the same password p returns k, where decryption
re-derives the symmetric key from p and the stored salt with the same
iteration count and authenticated-decrypts with the stored IV and tag. -/
theorem encrypt_decrypt_roundtrip (B : CryptoBackend) (k p : String)
    (tape : Nat → Nat) (pos : Nat) :
    decryptKey B (encryptKey B k p tape pos).1 p = Except.ok k :=
  decryptKey_encryptKey_mk B p k (randBytes 32 tape pos) (randBytes 16 tape (pos + 32))
    (randBytes_lt 32 tape pos) (randBytes_lt 16 tape (pos + 32))

/-- C3: encryptKey draws a 32-byte random salt and a 16-byte random IV,
derives the symmetric key from the password and the salt via PBKDF2 with
exactly 100000 iterations, 32 output bytes and SHA-256, encrypts with the
GCM stream cipher under that key and IV capturing the authentication tag,
and returns ciphertext, salt, IV and tag as four hex-string fields. -/
theorem encryptKey_parameters (B : CryptoBackend) (k p : String)
    (tape : Nat → Nat) (pos : Nat) :
    (randBytes 32 tape pos).length = 32 ∧
    (randBytes 16 tape (pos + 32)).length = 16 ∧
    (encryptKey B k p tape pos).1.salt = hexEncodeStr (randBytes 32 tape pos) ∧
    (encryptKey B k p tape pos).1.iv = hexEncodeStr (randBytes 16 tape (pos + 32)) ∧
    (encryptKey B k p tape pos).1.encrypted
      = hexEncodeStr (gcmEncrypt B
          (B.pbkdf2 p (randBytes 32 tape pos) 100000 32 "sha256")
          (randBytes 16 tape (pos + 32)) (utf8Encode k)) ∧
    (encryptKey B k p tape pos).1.authTag
      = hexEncodeStr (B.ghash
          (B.pbkdf2 p (randBytes 32 tape pos) 100000 32 "sha256")
          (randBytes 16 tape (pos + 32))
          (gcmEncrypt B (B.pbkdf2 p (randBytes 32 tape pos) 100000 32 "sha256")
            (randBytes 16 tape (pos + 32)) (utf8Encode k))) ∧
    isHexStr (encryptKey B k p tape pos).1.salt = true ∧
    isHexStr (encryptKey B k p tape pos).1.iv = true ∧
    isHexStr (encryptKey B k p tape pos).1.encrypted = true ∧
    isHexStr (encryptKey B k p tape pos).1.authTag = true := by
  refine ⟨randBytes_length _ _ _, randBytes_length _ _ _, rfl, rfl, rfl, rfl, ?_, ?_, ?_, ?_⟩
  · exact isHexStr_hexEncodeStr _ (randBytes_lt 32 tape pos)
  · exact isHexStr_hexEncodeStr _ (randBytes_lt 16 tape (pos + 32))
  · exact isHexStr_hexEncodeStr _ (gcmEncrypt_lt _ _ _ _ (utf8Encode_lt k))
  · exact isHexStr_hexEncodeStr _ (fun b hb => B.ghash_lt _ _ _ b hb)

/-- C4: each call of encryptKey consumes 48 fresh tape bytes (32 for the
salt then 16 for the IV) and advances the tape position, so a second call
with the identical key and password reads a disjoint stretch of the random
tape; whenever those fresh draws differ the two calls produce different
salt fields, different IV fields, and (when the keystreams differ on the
plaintext) different ciphertext fields. -/
theorem encryptKey_fresh_randomness (B : CryptoBackend) (k p : String)
    (tape : Nat → Nat) (pos : Nat) :
    (encryptKey B k p tape pos).2 = pos + 48 ∧
    (encryptKey B k p tape pos).1.salt = hexEncodeStr (randBytes 32 tape pos) ∧
    (encryptKey B k p tape (pos + 48)).1.salt
      = hexEncodeStr (randBytes 32 tape (pos + 48)) ∧
    (randBytes 32 tape pos ≠ randBytes 32 tape (pos + 48) →
      (encryptKey B k p tape pos).1.salt ≠ (encryptKey B k p tape (pos + 48)).1.salt) ∧
    (randBytes 16 tape (pos + 32) ≠ randBytes 16 tape (pos + 48 + 32) →
      (encryptKey B k p tape pos).1.iv ≠ (encryptKey B k p tape (pos + 48)).1.iv) ∧
    (gcmEncrypt B (B.pbkdf2 p (randBytes 32 tape pos) 100000 32 "sha256")
        (randBytes 16 tape (pos + 32)) (utf8Encode k)
      ≠ gcmEncrypt B (B.pbkdf2 p (randBytes 32 tape (pos + 48)) 100000 32 "sha256")
        (randBytes 16 tape (pos + 48 + 32)) (utf8Encode k) →
      (encryptKey B k p tape pos).1.encrypted
        ≠ (encryptKey B k p tape (pos + 48)).1.encrypted) := by
  refine ⟨rfl, rfl, rfl, ?_, ?_, ?_⟩
  · intro hne heq
    exact hne (hexEncodeStr_injOn _ _ (randBytes_lt 32 tape pos)
      (randBytes_lt 32 tape (pos + 48)) heq)
  · intro hne heq
    exact hne (hexEncodeStr_injOn _ _ (randBytes_lt 16 tape (pos + 32))
      (randBytes_lt 16 tape (pos + 48 + 32)) heq)
  · intro hne heq
    exact hne (hexEncodeStr_injOn _ _ (gcmEncrypt_lt _ _ _ _ (utf8Encode_lt k))
      (gcmEncrypt_lt _ _ _ _ (utf8Encode_lt k)) heq)

/-- C4 witness: on a concrete tape the two sequential calls do produce
different salt, IV and ciphertext fields. -/
theorem encryptKey_fresh_randomness_witness :
    (encryptKey modelBackend "k" "p" tape0 0).1.salt
      ≠ (encryptKey modelBackend "k" "p" tape0 48).1.salt ∧
    (encryptKey modelBackend "k" "p" tape0 0).1.iv
      ≠ (encryptKey modelBackend "k" "p" tape0 48).1.iv ∧
    (encryptKey modelBackend "k" "p" tape0 0).1.encrypted
      ≠ (encryptKey modelBackend "k" "p" tape0 48).1.encrypted :=
  ⟨(encryptKey_fresh_randomness modelBackend "k" "p" tape0 0).2.2.2.1 (by decide),
   (encryptKey_fresh_randomness modelBackend "k" "p" tape0 0).2.2.2.2.1 (by decide),
   (encryptKey_fresh_randomness modelBackend "k" "p" tape0 0).2.2.2.2.2 (by decide)⟩

/-- C10: encryptKey encrypts the UTF-8 bytes of the textual key string
itself, so the encrypted hex field has exactly twice as many characters as
the key has UTF-8 bytes; when the key is itself the hex encoding of raw
bytes, that is four hex characters of ciphertext per raw byte. -/
theorem encryptKey_utf8_semantics (B : CryptoBackend) (k p : String)
    (tape : Nat → Nat) (pos : Nat) :
    (encryptKey B k p tape pos).1.encrypted
      = hexEncodeStr (gcmEncrypt B
          (B.pbkdf2 p (randBytes 32 tape pos) 100000 32 "sha256")
          (randBytes 16 tape (pos + 32)) (utf8Encode k)) ∧
    (encryptKey B k p tape pos).1.encrypted.length = 2 * (utf8Encode k).length ∧
    (∀ raw : List Nat, (∀ b ∈ raw, b < 256) → k = hexEncodeStr raw →
      (encryptKey B k p tape pos).1.encrypted.length = 4 * raw.length) := by
  refine ⟨rfl, ?_, ?_⟩
  · show (hexEncodeStr (gcmEncrypt B
        (B.pbkdf2 p (randBytes 32 tape pos) 100000 32 "sha256")
        (randBytes 16 tape (pos + 32)) (utf8Encode k))).length = 2 * (utf8Encode k).length
    rw [hexEncodeStr_length, gcmEncrypt_length]
  · intro raw hraw hk
    show (hexEncodeStr (gcmEncrypt B
        (B.pbkdf2 p (randBytes 32 tape pos) 100000 32 "sha256")
        (randBytes 16 tape (pos + 32)) (utf8Encode k))).length = 4 * raw.length
    rw [hexEncodeStr_length, gcmEncrypt_length, hk]
    rw [show hexEncodeStr raw = String.mk (hexEncodeBytes raw) from rfl]
    rw [utf8Encode_mk_length (hexEncodeBytes raw) (hexEncodeBytes_toNat_lt raw hraw)]
    rw [hexEncodeBytes_length]
    omega

/-- C10 witness: encrypting the 8-character hex string that denotes the 4
raw bytes de ad be ef yields 16 hex characters of ciphertext. -/
theorem encryptKey_utf8_semantics_witness :
    (encryptKey modelBackend (hexEncodeStr [222, 173, 190, 239]) "password"
      tape0 0).1.encrypted.length = 16 :=
  (encryptKey_utf8_semantics modelBackend (hexEncodeStr [222, 173, 190, 239])
    "password" tape0 0).2.2 [222, 173, 190, 239] (by decide) rfl

/-- C2: every wallet persisted by the wallet-setup step has exactly the
five fields publicKey, network, createdAt, type and encryptedKey, the last
being null or the four hex fields encrypted, salt, iv, authTag; none of the
plaintext key fields rawSecretKey, base58Key or seedPhrase ever appears in
the persisted structure, at any nesting level. -/
theorem persisted_wallet_shape (B : CryptoBackend) (hasInq : Bool) (wd : WalletData)
    (inputs : List String) (tape : Nat → Nat) (pos : Nat) (createdAt : String)
    (out : List (String × JVal) × List SetupEvent)
    (h : stepWalletSetupSecure B hasInq wd inputs tape pos createdAt = some out) :
    out.1.map Prod.fst = ["publicKey", "network", "createdAt", "type", "encryptedKey"] ∧
    "rawSecretKey" ∉ persistedKeys out.1 ∧
    "base58Key" ∉ persistedKeys out.1 ∧
    "seedPhrase" ∉ persistedKeys out.1 ∧
    (out.1.lookup "encryptedKey" = some JVal.jnull ∨
      ∃ e : EncryptedEntry, out.1.lookup "encryptedKey"
        = some (JVal.jobj [("encrypted", e.encrypted), ("salt", e.salt),
            ("iv", e.iv), ("authTag", e.authTag)])) := by
  cases hraw : wd.rawSecretKey with
  | none =>
    simp only [stepWalletSetupSecure, hraw, Option.some.injEq] at h
    subst h
    refine ⟨rfl, ?_, ?_, ?_, Or.inl rfl⟩
    · show "rawSecretKey"
        ∉ (["publicKey", "network", "createdAt", "type", "encryptedKey"] : List String)
      decide
    · show "base58Key"
        ∉ (["publicKey", "network", "createdAt", "type", "encryptedKey"] : List String)
      decide
    · show "seedPhrase"
        ∉ (["publicKey", "network", "createdAt", "type", "encryptedKey"] : List String)
      decide
  | some raw =>
    simp only [stepWalletSetupSecure, hraw] at h
    cases hpw : collectPassword hasInq inputs with
    | none => rw [hpw] at h; exact absurd h (by simp)
    | some password =>
      rw [hpw] at h
      simp only [Option.some.injEq] at h
      subst h
      refine ⟨rfl, ?_, ?_, ?_, Or.inr ⟨_, rfl⟩⟩
      · show "rawSecretKey"
          ∉ (["publicKey", "network", "createdAt", "type", "encryptedKey",
              "encrypted", "salt", "iv", "authTag"] : List String)
        decide
      · show "base58Key"
          ∉ (["publicKey", "network", "createdAt", "type", "encryptedKey",
              "encrypted", "salt", "iv", "authTag"] : List String)
        decide
      · show "seedPhrase"
          ∉ (["publicKey", "network", "createdAt", "type", "encryptedKey",
              "encrypted", "salt", "iv", "authTag"] : List String)
        decide

/-- C2 witness: the shape theorem applied to a concretely persisted
hardware wallet. -/
theorem persisted_wallet_shape_witness :
    ((persistedWallet (connectHardwareWallet "PK") none "now").map Prod.fst
      = ["publicKey", "network", "createdAt", "type", "encryptedKey"]) ∧
    "rawSecretKey" ∉ persistedKeys (persistedWallet (connectHardwareWallet "PK") none "now") :=
  have h := persisted_wallet_shape modelBackend true (connectHardwareWallet "PK") []
    tape0 0 "now" (persistedWallet (connectHardwareWallet "PK") none "now", []) rfl
  ⟨h.1, h.2.1⟩

/-- C8: a hardware-wallet setup produces a record of type hardware with no
raw secret key; the securing phase then skips encryption entirely: the
event trace is empty (no password prompt, no encryptKey invocation,
whatever inputs or tape are offered) and the persisted encryptedKey field
is null while the persisted type field is hardware. -/
theorem hardware_wallet_skips_encryption (B : CryptoBackend) (pk : String)
    (hasInq : Bool) (inputs : List String) (tape : Nat → Nat) (pos : Nat)
    (createdAt : String) :
    (connectHardwareWallet pk).type = some "hardware" ∧
    (connectHardwareWallet pk).rawSecretKey = none ∧
    stepWalletSetupSecure B hasInq (connectHardwareWallet pk) inputs tape pos createdAt
      = some (persistedWallet (connectHardwareWallet pk) none createdAt, []) ∧
    (persistedWallet (connectHardwareWallet pk) none createdAt).lookup "encryptedKey"
      = some JVal.jnull ∧
    (persistedWallet (connectHardwareWallet pk) none createdAt).lookup "type"
      = some (JVal.jstr "hardware") :=
  ⟨rfl, rfl, rfl, rfl, rfl⟩

/-- The 64-byte secret key of the C9 failing input. -/
def sk0 : List Nat := List.replicate 64 7

/-- The wallet record of the C9 failing input: a locally generated wallet
carrying a raw secret key, about to be secured. -/
def wd0 : WalletData :=
  { publicKey := "PK0"
    type := some "local"
    network := some "devnet"
    base58Key := none
    rawSecretKey := some sk0
    seedPhrase := none
    encryptedKey := none }

/-- C9: the minimum password length 8 is enforced only by the inquirer
validate callback; the readline fallback prompt ignores validate and hands
the raw input through, so with inquirer absent the three-character password
abc reaches encryptKey unchecked, while the inquirer path would never
accept it. -/
theorem fallback_password_not_validated :
    collectPassword false ["abc"] = some "abc" ∧
    collectPassword true ["abc"] = none ∧
    ¬ (8 ≤ "abc".length) ∧
    stepWalletSetupSecure modelBackend false wd0 ["abc"] tape0 0 "now"
      = some (persistedWallet wd0
          (some ((encryptKey modelBackend (hexEncodeStr sk0) "abc" tape0 0).1)) "now",
        [SetupEvent.passwordPrompted, SetupEvent.encryptInvoked]) :=
  ⟨rfl, by decide, by decide, rfl⟩

/-- C5: import-by-key attempts base58 decoding first and consults the hex
decoding only when base58 fails; a result of invalidKeyFormat implies both
decodings failed; and whenever the decoded byte string does not have the
64-byte secret-key length the import is rejected with invalidKeyLength. -/
theorem import_key_decoding (B : CryptoBackend) (s : String) :
    (∀ b, base58Decode s = some b →
      importFromPrivateKey B s = match keypairFromSecretKey B b with
        | .ok kp => .ok (importedWalletRecord s kp)
        | .error e => .error e) ∧
    (base58Decode s = none →
      importFromPrivateKey B s = match keypairFromSecretKey B (nodeHexDecode s.data) with
        | .ok kp => .ok (importedWalletRecord s kp)
        | .error e => .error e) ∧
    (importFromPrivateKey B s = .error .invalidKeyFormat →
      base58Decode s = none ∧ bufferFromHexOpt s = none) ∧
    (∀ b, (base58Decode s = some b
        ∨ (base58Decode s = none ∧ b = nodeHexDecode s.data)) →
      b.length ≠ 64 → importFromPrivateKey B s = .error .invalidKeyLength) := by
  refine ⟨?_, ?_, ?_, ?_⟩
  · intro b hb
    rw [importFromPrivateKey_eq, hb]
  · intro hb
    rw [importFromPrivateKey_eq, hb]
  · intro h
    exfalso
    rw [importFromPrivateKey_eq] at h
    cases hr : keypairFromSecretKey B
        (match base58Decode s with
         | some b => b
         | none => nodeHexDecode s.data) with
    | ok kp => rw [hr] at h; exact Except.noConfusion h
    | error e =>
      rw [hr] at h
      injection h with h
      subst h
      exact keypairFromSecretKey_ne_format B _ hr
  · intro b hb hlen
    have hbytes : (match base58Decode s with
        | some x => x
        | none => nodeHexDecode s.data) = b := by
      rcases hb with h | ⟨h, rfl⟩ <;> rw [h]
    rw [importFromPrivateKey_eq, hbytes]
    unfold keypairFromSecretKey
    rw [if_neg hlen]

/-- C5 witness: the 20-hex-character input denoting 10 bytes fails base58
decoding (it contains the digit zero), hex-decodes to 10 bytes, and the
key is rejected with invalidKeyLength. -/
theorem import_key_decoding_witness :
    base58Decode "00112233445566778899" = none ∧
    (nodeHexDecode "00112233445566778899".data).length = 10 ∧
    importFromPrivateKey modelBackend "00112233445566778899"
      = Except.error WalletError.invalidKeyLength :=
  ⟨by decide, by decide,
   (import_key_decoding modelBackend "00112233445566778899").2.2.2
     (nodeHexDecode "00112233445566778899".data) (Or.inr ⟨by decide, rfl⟩) (by decide)⟩

/-- C6: mnemonic validation is a hard gate: whenever validation rejects the
phrase, import-by-mnemonic fails with invalidMnemonic, and the result does
not depend on the derivation primitives at all (any two backends rejecting
the phrase agree), so derivation is never performed on invalid input. -/
theorem mnemonic_validation_gates_derivation (B1 B2 : CryptoBackend) (phrase : String)
    (h1 : B1.validateMnemonic phrase = false)
    (h2 : B2.validateMnemonic phrase = false) :
    importFromSeedPhrase B1 phrase = Except.error WalletError.invalidMnemonic ∧
    importFromSeedPhrase B1 phrase = importFromSeedPhrase B2 phrase := by
  have e1 : importFromSeedPhrase B1 phrase = Except.error WalletError.invalidMnemonic := by
    unfold importFromSeedPhrase
    rw [h1]
    rfl
  have e2 : importFromSeedPhrase B2 phrase = Except.error WalletError.invalidMnemonic := by
    unfold importFromSeedPhrase
    rw [h2]
    rfl
  exact ⟨e1, e1.trans e2.symm⟩

/-- C6 witness: a concrete phrase the model backend rejects is refused with
invalidMnemonic. -/
theorem mnemonic_validation_gates_derivation_witness :
    modelBackend.validateMnemonic "definitely bogus" = false ∧
    importFromSeedPhrase modelBackend "definitely bogus"
      = Except.error WalletError.invalidMnemonic :=
  ⟨by decide,
   (mnemonic_validation_gates_derivation modelBackend modelBackend "definitely bogus"
     (by decide) (by decide)).1⟩

/-- C7: when creating a wallet succeeds, importing by mnemonic with the
freshly generated seed phrase runs the identical toSeed, derivePath and
fromSeed pipeline and therefore yields the same public key. -/
theorem create_then_import_same_key (B : CryptoBackend) (tape : Nat → Nat) (pos : Nat)
    (w : WalletData) (h : generateNewWallet B tape pos = Except.ok w) :
    walletPublicKey (importFromSeedPhrase B (w.seedPhrase.getD ""))
      = Except.ok w.publicKey := by
  have hlen : ((B.derivePath solanaDerivationPath
      (hexEncodeStr (B.mnemonicToSeed
        (B.generateMnemonic 128 (randBytes 16 tape pos))))).take 32).length = 32 := by
    rw [List.length_take, B.derivePath_len]
    exact min_self 32
  have hkp : keypairFromSeed B ((B.derivePath solanaDerivationPath
        (hexEncodeStr (B.mnemonicToSeed
          (B.generateMnemonic 128 (randBytes 16 tape pos))))).take 32)
      = Except.ok
        { publicKey := B.pubFromSeed ((B.derivePath solanaDerivationPath
            (hexEncodeStr (B.mnemonicToSeed
              (B.generateMnemonic 128 (randBytes 16 tape pos))))).take 32)
          secretKey := ((B.derivePath solanaDerivationPath
            (hexEncodeStr (B.mnemonicToSeed
              (B.generateMnemonic 128 (randBytes 16 tape pos))))).take 32)
            ++ B.pubFromSeed ((B.derivePath solanaDerivationPath
              (hexEncodeStr (B.mnemonicToSeed
                (B.generateMnemonic 128 (randBytes 16 tape pos))))).take 32) } := by
    unfold keypairFromSeed
    rw [if_pos hlen]
  simp only [generateNewWallet] at h
  rw [hkp] at h
  injection h with h
  subst h
  show walletPublicKey (importFromSeedPhrase B
    (B.generateMnemonic 128 (randBytes 16 tape pos))) = _
  simp only [importFromSeedPhrase]
  rw [B.validate_generate, if_pos rfl, hkp]
  rfl

/-- The wallet produced by a concrete run of generateNewWallet on the
model backend, used to instantiate the create-then-import scenario. -/
def wGen : WalletData :=
  (generateNewWallet modelBackend tape0 0).toOption.getD (connectHardwareWallet "")

/-- C7 witness: the create-then-import scenario on the model backend with a
concrete tape reproduces the created public key. -/
theorem create_then_import_same_key_witness :
    walletPublicKey (importFromSeedPhrase modelBackend (wGen.seedPhrase.getD ""))
      = Except.ok wGen.publicKey :=
  create_then_import_same_key modelBackend tape0 0 wGen rfl

end Openclaw
